import Mathlib

/-!
Verification of the table-reconstruction and schedule-parsing core of
`src/save.py` (CUHK course database scraper).

Cells are `Option String`: `none` models a pandas `NaN`, `some s` a text
cell.  A cell counts as empty when it is `NaN` or the empty string,
matching `pd.isna(x) or x == ''` in the source.
-/

namespace CourseDB

/-- Python whitespace as matched by `\s` in a `str` pattern and stripped
by `str.strip()`: the ASCII whitespace and every Unicode whitespace
character (the 29 codepoints for which `str.isspace()` holds). -/
def isPySpace (c : Char) : Bool :=
  c = '\t' ∨ c = '\n' ∨ c = '\x0b' ∨ c = '\x0c' ∨ c = '\r' ∨
  c = '\x1c' ∨ c = '\x1d' ∨ c = '\x1e' ∨ c = '\x1f' ∨ c = ' ' ∨
  c = '\x85' ∨ c = '\u00a0' ∨ c = '\u1680' ∨
  c = '\u2000' ∨ c = '\u2001' ∨ c = '\u2002' ∨ c = '\u2003' ∨ c = '\u2004' ∨
  c = '\u2005' ∨ c = '\u2006' ∨ c = '\u2007' ∨ c = '\u2008' ∨ c = '\u2009' ∨
  c = '\u200a' ∨ c = '\u2028' ∨ c = '\u2029' ∨ c = '\u202f' ∨ c = '\u205f' ∨
  c = '\u3000'

abbrev Cell := Option String

abbrev Row := List Cell

/-- `pd.isna(x) or x == ''`, the emptiness test used throughout `save.py`. -/
def emptyCell : Cell → Bool
  | none => true
  | some s => decide (s = "")

/-- Cell of a row at a column index; reads as `NaN` past the end. -/
def cellAt (r : Row) (j : Nat) : Cell := r.getD j none

/-- One filled row: every cell that is empty in the current row is copied
from the corresponding cell of `prev` (the body of the inner `for col`
loop of `fill_empty_class_codes`, lines 110-118 of `src/save.py`). -/
def fillRow : Row → Row → Row
  | _, [] => []
  | prev, c :: cs =>
    (if emptyCell c then prev.headD none else c) :: fillRow prev.tail cs

/-- Processing of one row in the grouping-column mode of
`fill_empty_class_codes`: a row whose grouping cell is empty is filled
from `prev` when a previous row exists, otherwise left as is. -/
def stepFn (g : Nat) (prev : Option Row) (r : Row) : Row :=
  if emptyCell (cellAt r g) then
    match prev with
    | none => r
    | some p => fillRow p r
  else r

/-- The row loop of `fill_empty_class_codes` (lines 102-121): after each
row, `prev_row` is set to a copy of the row's current (possibly filled)
state, unconditionally. -/
def fillGroupRows (g : Nat) : Option Row → List Row → List Row
  | _, [] => []
  | prev, r :: rs =>
    let r2 := stepFn g prev r
    r2 :: fillGroupRows g (some r2) rs

/-- `df[col].replace('', np.nan)` on one cell. -/
def replBlank (c : Cell) : Cell := if c = some "" then none else c

/-- Forward-fill of one row against the running per-column carry
(`fillna(method='ffill')` after blank replacement, expressed row-wise). -/
def fillRowF : Row → Row → Row
  | _, [] => []
  | carry, c :: cs =>
    (match replBlank c with
     | none => carry.headD none
     | some s => some s) :: fillRowF carry.tail cs

/-- The fallback branch of `fill_empty_class_codes` (lines 126-127):
per-column replace-blank-then-forward-fill, with the carry holding each
column's last valid value. -/
def ffillRows : Row → List Row → List Row
  | _, [] => []
  | carry, r :: rs =>
    let r2 := fillRowF carry r
    r2 :: ffillRows r2 rs

/-- `fill_empty_class_codes`: grouping-column mode when a grouping column
index was resolved, per-column forward-fill otherwise. -/
def fill_empty_class_codes (gcol : Option Nat) (rows : List Row) : List Row :=
  match gcol with
  | some g => fillGroupRows g none rows
  | none => ffillRows [] rows

/-- The Group Reconstructor exactly as claim C1 words it: the copy source
is the last preceding row whose grouping cell was non-empty *as read*,
kept as a raw copy of that row as read; rows read with an empty grouping
cell never become the copy source. -/
def fillGroupClaimC1 (g : Nat) : Option Row → List Row → List Row
  | _, [] => []
  | src, r :: rs =>
    if emptyCell (cellAt r g) then
      (match src with
       | none => r
       | some p => fillRow p r) :: fillGroupClaimC1 g src rs
    else r :: fillGroupClaimC1 g (some r) rs

/-! ## Schedule field parser (`extract_time_and_day`, lines 155-280) -/

/-- The `day_mapping` dict of `extract_time_and_day`, in source
(insertion) order.  Keys are kept as character lists. -/
def dayMapping : List (List Char × Nat) :=
  [("mo".toList, 1), ("mon".toList, 1), ("monday".toList, 1), ("m".toList, 1),
   ("tu".toList, 2), ("tue".toList, 2), ("tues".toList, 2), ("tuesday".toList, 2),
   ("t".toList, 2),
   ("we".toList, 3), ("wed".toList, 3), ("wednesday".toList, 3), ("w".toList, 3),
   ("th".toList, 4), ("thu".toList, 4), ("thur".toList, 4), ("thurs".toList, 4),
   ("thursday".toList, 4),
   ("fr".toList, 5), ("fri".toList, 5), ("friday".toList, 5), ("f".toList, 5),
   ("sa".toList, 6), ("sat".toList, 6), ("saturday".toList, 6), ("s".toList, 6),
   ("su".toList, 7), ("sun".toList, 7), ("sunday".toList, 7)]

/-- Exact dictionary lookup (`day_abbr in day_mapping`). -/
def assocLookup (k : List Char) : List (List Char × Nat) → Option Nat
  | [] => none
  | kv :: rest => if k = kv.1 then some kv.2 else assocLookup k rest

/-- The fallback loop of `extract_day`: first key (in insertion order)
that the token is a prefix of (`key.startswith(day_abbr)`). -/
def prefixLookup (k : List Char) : List (List Char × Nat) → Option Nat
  | [] => none
  | kv :: rest => if k.isPrefixOf kv.1 then some kv.2 else prefixLookup k rest

/-- Does `re.search(r'^([a-zA-Z]{1,3})\s', s)` succeed with a group of
exactly `n` letters: the first `n` characters are ASCII letters and the
character at index `n` is whitespace. -/
def leadsWith (n : Nat) (cs : List Char) : Bool :=
  (cs.take n).all Char.isAlpha &&
    (match cs.get? n with
     | some c => isPySpace c
     | none => false)

/-- Group 1 of `re.search(r'^([a-zA-Z]{1,3})\s', s)`: the quantifier is
greedy, so three letters are tried first, then two, then one. -/
def matchDayToken (cs : List Char) : Option (List Char) :=
  if leadsWith 3 cs then some (cs.take 3)
  else if leadsWith 2 cs then some (cs.take 2)
  else if leadsWith 1 cs then some (cs.take 1)
  else none

/-- `extract_day` (lines 186-202): leading 1-3 letter token, lowercased,
exact dictionary lookup, then the prefix-fallback loop. -/
def extract_day (s : Option String) : Option Nat :=
  match s with
  | none => none
  | some str =>
    let cs := str.toList
    if cs.isEmpty then none
    else
      match matchDayToken cs with
      | none => none
      | some tok =>
        let abbr := tok.map Char.toLower
        match assocLookup abbr dayMapping with
        | some v => some v
        | none => prefixLookup abbr dayMapping

/-- `extract_day` with the prefix-fallback loop removed: only the exact
dictionary lookup decides (the comparison point of claim C9). -/
def extract_day_exact (s : Option String) : Option Nat :=
  match s with
  | none => none
  | some str =>
    let cs := str.toList
    if cs.isEmpty then none
    else
      match matchDayToken cs with
      | none => none
      | some tok => assocLookup (tok.map Char.toLower) dayMapping

/-- `int(...)` on a digit string. -/
def digitsToNat (cs : List Char) : Nat :=
  cs.foldl (fun acc c => acc * 10 + (c.toNat - '0'.toNat)) 0

/-- Greedy bounded repetition: take at most `n` leading characters
satisfying `p`, returning them and the remainder. -/
def takeUpTo (n : Nat) (p : Char → Bool) (cs : List Char) : List Char × List Char :=
  match n, cs with
  | 0, _ => ([], cs)
  | _ + 1, [] => ([], [])
  | m + 1, c :: rest =>
    if p c then
      let t := takeUpTo m p rest
      (c :: t.1, t.2)
    else ([], c :: rest)

/-- Group 2 `(\d{2})?` of the `extract_time` regex: exactly two digits
or nothing. -/
def minuteGroup (r2 : List Char) : Option (List Char) × List Char :=
  match r2 with
  | a :: b :: t => if a.isDigit && b.isDigit then (some [a, b], t) else (none, r2)
  | _ => (none, r2)

/-- Groups of `re.search(r'(\d{1,2}):?(\d{2})?\s*(am|pm|AM|PM)?', s)` once
positioned at the first digit: hour digits (greedy, up to two), optional
colon, optional exact-two-digit minute, skipped whitespace, optional
meridiem literal (lowercased, as `match.group(3).lower()`). -/
def timeFieldsParts (cs : List Char) :
    List Char × Option (List Char) × Option (List Char) :=
  let t1 := takeUpTo 2 Char.isDigit cs
  let r1 := t1.2
  let r2 := match r1 with
    | c :: t => if c = ':' then t else r1
    | [] => r1
  let t2 := minuteGroup r2
  let r4 := t2.2.dropWhile isPySpace
  let ap := match r4 with
    | a :: b :: _ =>
      if [a, b] = ['a', 'm'] ∨ [a, b] = ['p', 'm'] ∨ [a, b] = ['A', 'M'] ∨ [a, b] = ['P', 'M']
      then some [a.toLower, b.toLower] else none
    | _ => none
  (t1.1, t2.1, ap)

/-- The numeric groups of the `extract_time` regex: `int` conversions of
the hour and minute group texts, the minute defaulting to 0 when group 2
is absent. -/
def timeFieldsAt (cs : List Char) : Nat × Nat × Option (List Char) :=
  let p := timeFieldsParts cs
  (digitsToNat p.1, (p.2.1.map digitsToNat).getD 0, p.2.2)

/-- Scan of `re.search` for the `extract_time` pattern: the first digit
(the only mandatory element, `\d{1,2}`) anchors the match. -/
def extractTimeFields : List Char → Option (Nat × Nat × Option (List Char))
  | [] => none
  | c :: rest =>
    if c.isDigit then some (timeFieldsAt (c :: rest))
    else extractTimeFields rest

/-- The 12-to-24-hour correction of `extract_time` (lines 218-222). -/
def to24 (h : Nat) (ap : Option (List Char)) : Nat :=
  if ap = some ['p', 'm'] ∧ h < 12 then h + 12
  else if ap = some ['a', 'm'] ∧ h = 12 then 0
  else h

/-- `extract_time` (lines 205-225) on a string argument: `None` for the
empty (falsy) string or when no digit occurs, else the HHMM encoding
`hour*100 + minute` after meridiem correction. -/
def extract_time (cs : List Char) : Option Nat :=
  if cs.isEmpty then none
  else
    match extractTimeFields cs with
    | none => none
    | some (h, m, ap) => some (to24 h ap * 100 + m)

def isDash (c : Char) : Bool := c = '-' ∨ c = '–' ∨ c = '—'

/-- Does the separator `\s*[\-–—]\s*` match at the head of `cs`?  If so,
return the remainder after the greedy match (leading whitespace run, one
dash, trailing whitespace run). -/
def sepHere (cs : List Char) : Option (List Char) :=
  match cs.dropWhile isPySpace with
  | d :: rest => if isDash d then some (rest.dropWhile isPySpace) else none
  | [] => none

/-- Scanner of `re.split(r'\s*[\-–—]\s*', s)`: cut at each leftmost
separator match.  Fuel bounds the number of steps; every step consumes at
least one character, so `length + 1` fuel is always enough. -/
def splitSepGo : Nat → List Char → List Char → List (List Char)
  | 0, acc, _ => [acc.reverse]
  | _ + 1, acc, [] => [acc.reverse]
  | fuel + 1, acc, c :: rest =>
    match sepHere (c :: rest) with
    | some rem => acc.reverse :: splitSepGo fuel [] rem
    | none => splitSepGo fuel (c :: acc) rest

/-- `re.split(r'\s*[\-–—]\s*', s)` (line 233). -/
def splitSep (cs : List Char) : List (List Char) :=
  splitSepGo (cs.length + 1) [] cs

/-- One match of the findall pattern
`(\d{1,2}[:.]?\d{0,2}\s*(am|pm|AM|PM)?)` starting at a digit: greedy hour
digits, optional colon or dot, up to two greedy minute digits, greedy
whitespace, optional meridiem.  Returns the matched text and the rest. -/
def munchTime (cs : List Char) : List Char × List Char :=
  let (hh, r1) := takeUpTo 2 Char.isDigit cs
  let (sep, r2) := match r1 with
    | c :: t => if c = ':' ∨ c = '.' then ([c], t) else (([] : List Char), r1)
    | [] => ([], r1)
  let (mm, r3) := takeUpTo 2 Char.isDigit r2
  let ws := r3.takeWhile isPySpace
  let r4 := r3.dropWhile isPySpace
  let (ap, r5) := match r4 with
    | a :: b :: t =>
      if [a, b] = ['a', 'm'] ∨ [a, b] = ['p', 'm'] ∨ [a, b] = ['A', 'M'] ∨ [a, b] = ['P', 'M']
      then ([a, b], t) else (([] : List Char), r4)
    | _ => ([], r4)
  (hh ++ sep ++ mm ++ ws ++ ap, r5)

/-- Scanner of `re.findall(r'(\d{1,2}[:.]?\d{0,2}\s*(am|pm|AM|PM)?)', s)`:
non-overlapping matches, each anchored at a digit.  Fuel as in
`splitSepGo`. -/
def timeMatchesGo : Nat → List Char → List (List Char)
  | 0, _ => []
  | _ + 1, [] => []
  | fuel + 1, c :: rest =>
    if c.isDigit then
      let (m, rem) := munchTime (c :: rest)
      m :: timeMatchesGo fuel rem
    else timeMatchesGo fuel rest

/-- All group-1 texts of the findall time pattern (lines 249-253). -/
def timeMatches (cs : List Char) : List (List Char) :=
  timeMatchesGo (cs.length + 1) cs

/-- The whole-text fallback of `extract_start_end_times`: the first two
findall matches, or `(None, None)` when fewer than two exist. -/
def fallbackTimes (cs : List Char) : Option Nat × Option Nat :=
  let times := timeMatches cs
  if 2 ≤ times.length then
    (extract_time (times.getD 0 []), extract_time (times.getD 1 []))
  else (none, none)

/-- `extract_start_end_times` (lines 228-255): split on the dash
separator; with at least two parts, keep the parts in which the time
pattern matches (`re.search` of the findall pattern succeeds exactly when
a match exists, i.e. `timeMatches` is nonempty) and use the first two;
otherwise fall back to scanning the whole text. -/
def extract_start_end_times (s : Option String) : Option Nat × Option Nat :=
  match s with
  | none => (none, none)
  | some str =>
    let cs := str.toList
    if cs.isEmpty then (none, none)
    else if 2 ≤ (splitSep cs).length then
      let tp := (splitSep cs).filter (fun p => !(timeMatches p).isEmpty)
      if 2 ≤ tp.length then
        (extract_time (tp.getD 0 []), extract_time (tp.getD 1 []))
      else fallbackTimes cs
    else fallbackTimes cs

/-- One schedule cell through `extract_time_and_day`: the three derived
fields `day_num`, `start_time`, `end_time`. -/
def parse_period (s : Option String) : Option Nat × Option Nat × Option Nat :=
  (extract_day s, extract_start_end_times s)

/-! ## Period normalizer (`sanitize_period`, `convert_to_sql_period`) -/

/-- `str.strip()` restricted to the modelled whitespace set. -/
def pyStrip (cs : List Char) : List Char :=
  ((cs.dropWhile isPySpace).reverse.dropWhile isPySpace).reverse

/-- `re.sub(r'\s+', ' ', s)`: each maximal whitespace run becomes one
space.  The flag records whether the previous character was whitespace. -/
def collapseWsAux : Bool → List Char → List Char
  | _, [] => []
  | prevWs, c :: rest =>
    if isPySpace c then
      if prevWs then collapseWsAux true rest
      else ' ' :: collapseWsAux true rest
    else c :: collapseWsAux false rest

/-- `sanitize_period` (lines 282-289): `''` for `NaN` or the empty
string, else strip then collapse whitespace runs. -/
def sanitize_period (s : Option String) : String :=
  match s with
  | none => ""
  | some str =>
    if str.toList.isEmpty then ""
    else String.mk (collapseWsAux false (pyStrip str.toList))

/-- The character class `[\.\/\s\-\:]` of `convert_to_sql_period`. -/
def isUnderscoreTarget (c : Char) : Bool :=
  c = '.' ∨ c = '/' ∨ c = '-' ∨ c = ':' ∨ isPySpace c

/-- `[a-zA-Z0-9_]`, the characters kept by the second substitution. -/
def isWordChar (c : Char) : Bool :=
  ('a' ≤ c ∧ c ≤ 'z') ∨ ('A' ≤ c ∧ c ≤ 'Z') ∨ ('0' ≤ c ∧ c ≤ '9') ∨ c = '_'

/-- Step 3 of `convert_to_sql_period`: prefix `p_` when the token is
non-empty and starts with a digit. -/
def digitPrefix (l : List Char) : List Char :=
  match l with
  | [] => l
  | c :: _ => if c.isDigit then 'p' :: '_' :: l else l

/-- `convert_to_sql_period` (lines 291-306): `None` for `NaN`/empty
input; else replace the `[\.\/\s\-\:]` class with underscores, strip all
other non-word characters, and prefix `p_` when the result is non-empty
and starts with a digit. -/
def convert_to_sql_period (s : Option String) : Option String :=
  match s with
  | none => none
  | some str =>
    if str.toList.isEmpty then none
    else
      let step1 := str.toList.map (fun c => if isUnderscoreTarget c then '_' else c)
      let step2 := step1.filter isWordChar
      some (String.mk (digitPrefix step2))

/-- The token deriver exactly as claim C7 words it: the replacement set
is the five literal characters period, slash, space, hyphen, colon. -/
def claimC7ReplChar (c : Char) : Bool :=
  c = '.' ∨ c = '/' ∨ c = ' ' ∨ c = '-' ∨ c = ':'

/-- `derive_token` per the literal wording of claim C7 (space only, not
the whole whitespace class). -/
def derive_token_claimC7 (s : Option String) : Option String :=
  match s with
  | none => none
  | some str =>
    if str.toList.isEmpty then none
    else
      let step1 := str.toList.map (fun c => if claimC7ReplChar c then '_' else c)
      let step2 := step1.filter isWordChar
      some (String.mk (digitPrefix step2))

/-- The amended claim C7 replacement set: period, slash, hyphen, colon,
and every character Python classifies as whitespace — the ASCII
whitespace (tab, LF, VT, FF, CR, FS, GS, RS, US, space) together with
the Unicode whitespace characters (NEL, NBSP, Ogham space mark, the
U+2000–U+200A spaces, line and paragraph separators, narrow no-break
space, medium mathematical space, ideographic space). -/
def amendedC7ReplChar (c : Char) : Bool :=
  c = '.' ∨ c = '/' ∨ c = '-' ∨ c = ':' ∨
  c = '\t' ∨ c = '\n' ∨ c = '\x0b' ∨ c = '\x0c' ∨ c = '\r' ∨
  c = '\x1c' ∨ c = '\x1d' ∨ c = '\x1e' ∨ c = '\x1f' ∨ c = ' ' ∨
  c = '\x85' ∨ c = '\u00a0' ∨ c = '\u1680' ∨
  c = '\u2000' ∨ c = '\u2001' ∨ c = '\u2002' ∨ c = '\u2003' ∨ c = '\u2004' ∨
  c = '\u2005' ∨ c = '\u2006' ∨ c = '\u2007' ∨ c = '\u2008' ∨ c = '\u2009' ∨
  c = '\u200a' ∨ c = '\u2028' ∨ c = '\u2029' ∨ c = '\u202f' ∨ c = '\u205f' ∨
  c = '\u3000'

/-- `derive_token` per the amended wording of claim C7. -/
def derive_token_amendedC7 (s : Option String) : Option String :=
  match s with
  | none => none
  | some str =>
    if str.toList.isEmpty then none
    else
      let step1 := str.toList.map (fun c => if amendedC7ReplChar c then '_' else c)
      let step2 := step1.filter isWordChar
      some (String.mk (digitPrefix step2))

/-! ## Error-instrumented parsing pipeline

The only operation of the parsing core that can raise in Python is
`int(...)`.  The functions below repeat the pipeline with that conversion
made fallible (`Except`), so that totality — claim C8 — is the statement
that the instrumented pipeline always returns `ok` of the plain result. -/

/-- Python `int(...)` as a fallible conversion: it raises unless the text
is a non-empty digit string. -/
def pyIntE (cs : List Char) : Except String Nat :=
  if cs ≠ [] ∧ cs.all Char.isDigit then .ok (digitsToNat cs)
  else .error "invalid literal for int"

/-- `timeFieldsAt` with fallible `int` conversions. -/
def timeFieldsAtE (cs : List Char) : Except String (Nat × Nat × Option (List Char)) :=
  let p := timeFieldsParts cs
  match pyIntE p.1 with
  | .error e => .error e
  | .ok h =>
    match p.2.1 with
    | none => .ok (h, 0, p.2.2)
    | some d =>
      match pyIntE d with
      | .error e => .error e
      | .ok m => .ok (h, m, p.2.2)

/-- `extractTimeFields` with fallible `int` conversions. -/
def extractTimeFieldsE : List Char → Except String (Option (Nat × Nat × Option (List Char)))
  | [] => .ok none
  | c :: rest =>
    if c.isDigit then
      match timeFieldsAtE (c :: rest) with
      | .error e => .error e
      | .ok v => .ok (some v)
    else extractTimeFieldsE rest

/-- `extract_time` with fallible `int` conversions. -/
def extract_timeE (cs : List Char) : Except String (Option Nat) :=
  if cs.isEmpty then .ok none
  else
    match extractTimeFieldsE cs with
    | .error e => .error e
    | .ok none => .ok none
    | .ok (some (h, m, ap)) => .ok (some (to24 h ap * 100 + m))

/-- The whole-text fallback of `extract_start_end_times` with fallible
`int` conversions. -/
def fallbackTimesE (cs : List Char) : Except String (Option Nat × Option Nat) :=
  let times := timeMatches cs
  if 2 ≤ times.length then
    match extract_timeE (times.getD 0 []) with
    | .error e => .error e
    | .ok a =>
      match extract_timeE (times.getD 1 []) with
      | .error e => .error e
      | .ok b => .ok (a, b)
  else .ok (none, none)

/-- `extract_start_end_times` with fallible `int` conversions. -/
def extract_start_end_timesE (s : Option String) : Except String (Option Nat × Option Nat) :=
  match s with
  | none => .ok (none, none)
  | some str =>
    let cs := str.toList
    if cs.isEmpty then .ok (none, none)
    else if 2 ≤ (splitSep cs).length then
      let tp := (splitSep cs).filter (fun p => !(timeMatches p).isEmpty)
      if 2 ≤ tp.length then
        match extract_timeE (tp.getD 0 []) with
        | .error e => .error e
        | .ok a =>
          match extract_timeE (tp.getD 1 []) with
          | .error e => .error e
          | .ok b => .ok (a, b)
      else fallbackTimesE cs
    else fallbackTimesE cs

/-- One schedule cell through the cleaner, token deriver, day extractor
and start/end time extractor, with the fallible `int` sites
instrumented.  The cleaner, deriver and day extractor contain no
fallible operation in the source. -/
def parse_cellE (s : Option String) :
    Except String (String × Option String × Option Nat × (Option Nat × Option Nat)) :=
  match extract_start_end_timesE s with
  | .error e => .error e
  | .ok st => .ok (sanitize_period s, convert_to_sql_period s, extract_day s, st)

/-! ## Lemmas about the Group Reconstructor -/

theorem replBlank_ne_blank (c : Cell) : replBlank c ≠ some "" := by
  by_cases h : c = some "" <;> simp [replBlank, h]

theorem stepFn_none (g : Nat) (r : Row) : stepFn g none r = r := by
  simp [stepFn]

theorem fillRow_idem (p r : Row) : fillRow p (fillRow p r) = fillRow p r := by
  induction r generalizing p with
  | nil => rfl
  | cons c cs ih =>
    simp only [fillRow, List.cons.injEq]
    refine ⟨?_, ih p.tail⟩
    by_cases h : emptyCell c = true
    · simp only [h, if_true]
      by_cases h2 : emptyCell (p.headD none) = true
      · simp [h2]
      · simp [h2]
    · simp [h]

theorem stepFn_idem (g : Nat) (prev : Option Row) (r : Row) :
    stepFn g prev (stepFn g prev r) = stepFn g prev r := by
  cases prev with
  | none => rw [stepFn_none, stepFn_none]
  | some p =>
    by_cases h : emptyCell (cellAt r g) = true
    · simp only [stepFn, h, if_true]
      by_cases h2 : emptyCell (cellAt (fillRow p r) g) = true
      · simp [h2, fillRow_idem]
      · simp [h2]
    · simp [stepFn, h]

theorem fillGroupRows_idem (g : Nat) :
    ∀ (rows : List Row) (prev : Option Row),
      fillGroupRows g prev (fillGroupRows g prev rows) = fillGroupRows g prev rows := by
  intro rows
  induction rows with
  | nil => intro prev; rfl
  | cons r rs ih =>
    intro prev
    simp only [fillGroupRows]
    rw [stepFn_idem]
    rw [ih (some (stepFn g prev r))]

theorem fillRowF_idem (r : Row) :
    ∀ carry : Row, (∀ c ∈ carry, c ≠ some "") →
      fillRowF carry (fillRowF carry r) = fillRowF carry r := by
  induction r with
  | nil => intro carry _; rfl
  | cons c cs ih =>
    intro carry hnb
    simp only [fillRowF, List.cons.injEq]
    constructor
    · cases hc : replBlank c with
      | some s =>
        have hs : some s ≠ some "" := hc ▸ replBlank_ne_blank c
        simp only [replBlank]
        simp [hs]
      | none =>
        cases hcar : carry.headD none with
        | none => simp [replBlank]
        | some t =>
          have ht : some t ≠ some "" := by
            cases carry with
            | nil => simp at hcar
            | cons a as =>
              simp only [List.headD] at hcar
              exact hcar ▸ hnb a (List.mem_cons_self a as)
          simp only [replBlank]
          simp [ht]
    · exact ih carry.tail (fun c' h' => hnb c' (List.mem_of_mem_tail h'))

theorem noBlank_fillRowF (r : Row) :
    ∀ carry : Row, (∀ c ∈ carry, c ≠ some "") →
      ∀ x ∈ fillRowF carry r, x ≠ some "" := by
  induction r with
  | nil => intro carry _ x hx; simp [fillRowF] at hx
  | cons c cs ih =>
    intro carry hnb x hx
    simp only [fillRowF, List.mem_cons] at hx
    rcases hx with hx | hx
    · subst hx
      cases hc : replBlank c with
      | none =>
        simp only [hc]
        cases carry with
        | nil => simp
        | cons a as => simpa using hnb a (List.mem_cons_self a as)
      | some s =>
        simp only [hc]
        exact hc ▸ replBlank_ne_blank c
    · exact ih carry.tail (fun c' h' => hnb c' (List.mem_of_mem_tail h')) x hx

theorem ffillRows_idem (rows : List Row) :
    ∀ carry : Row, (∀ c ∈ carry, c ≠ some "") →
      ffillRows carry (ffillRows carry rows) = ffillRows carry rows := by
  induction rows with
  | nil => intro carry _; rfl
  | cons r rs ih =>
    intro carry hnb
    simp only [ffillRows]
    rw [fillRowF_idem r carry hnb]
    rw [ih (fillRowF carry r) (noBlank_fillRowF r carry hnb)]

theorem fillGroupRows_getD_succ (g : Nat) :
    ∀ (rows : List Row) (prev : Option Row) (k : Nat), k + 1 < rows.length →
      (fillGroupRows g prev rows).getD (k + 1) [] =
        stepFn g (some ((fillGroupRows g prev rows).getD k []))
          (rows.getD (k + 1) []) := by
  intro rows
  induction rows with
  | nil => intro prev k h; simp at h
  | cons r rs ih =>
    intro prev k h
    cases k with
    | zero =>
      cases rs with
      | nil => simp at h
      | cons r' rs' =>
        simp [fillGroupRows, List.getD]
    | succ k' =>
      have h' : k' + 1 < rs.length := by
        simp only [List.length_cons] at h
        omega
      simp only [fillGroupRows, List.getD_cons_succ]
      exact ih (some (stepFn g prev r)) k' h'

theorem fillGroupRows_length (g : Nat) :
    ∀ (rows : List Row) (prev : Option Row),
      (fillGroupRows g prev rows).length = rows.length := by
  intro rows
  induction rows with
  | nil => intro prev; rfl
  | cons r rs ih => intro prev; simp [fillGroupRows, ih]

theorem fillRowF_nil (r : Row) : fillRowF [] r = r.map replBlank := by
  induction r with
  | nil => rfl
  | cons c cs ih =>
    simp only [fillRowF, List.map_cons, List.tail_nil, ih, List.cons.injEq,
      and_true]
    cases hc : replBlank c <;> simp [hc]

theorem cellAt_map_replBlank :
    ∀ (r : Row) (j : Nat), j < r.length →
      cellAt (r.map replBlank) j = replBlank (cellAt r j) := by
  intro r
  induction r with
  | nil => intro j h; simp at h
  | cons c cs ih =>
    intro j h
    cases j with
    | zero => simp [cellAt]
    | succ j' =>
      simp only [cellAt, List.map_cons, List.getD_cons_succ]
      exact ih j' (by simpa using h)

theorem emptyCell_replBlank (c : Cell) (h : emptyCell c = true) :
    emptyCell (replBlank c) = true := by
  cases c with
  | none => simp [replBlank, emptyCell]
  | some s =>
    have : s = "" := by simpa [emptyCell] using h
    subst this
    simp [replBlank, emptyCell]

theorem replBlank_of_nonempty (c : Cell) (h : emptyCell c = false) :
    replBlank c = c := by
  cases c with
  | none => simp [emptyCell] at h
  | some s =>
    have : s ≠ "" := by simpa [emptyCell] using h
    simp [replBlank, this]

/-! ## Claims C1, C2, C6 -/

/-- Claim C1, counterexample.  On the table
`[[A,1], ["",2], ["",""]]` with grouping column 0 the code fills the last
row from the *filled previous row* `[A,2]`, whereas the claim's rule
(copy from the last row whose grouping cell was non-empty as read, as a
raw copy) would fill it from `[A,1]`.  The two procedures disagree, so
the claim as stated is false of the code. -/
theorem claimC1_cex :
    fill_empty_class_codes (some 0)
        [[some "A", some "1"], [some "", some "2"], [some "", some ""]] ≠
      fillGroupClaimC1 0 none
        [[some "A", some "1"], [some "", some "2"], [some "", some ""]] := by
  decide

/-- Claim C1, amended: with a present grouping column, the copy source
for a row whose grouping cell is empty is the *immediately preceding row
in its processed (filled) state* — every processed row, including one
whose grouping cell was empty as read, becomes the copy source for the
next row; the first row passes through unchanged and row count is
preserved. -/
theorem claimC1_amended (g : Nat) (rows : List Row) :
    (fill_empty_class_codes (some g) rows).length = rows.length ∧
    (fill_empty_class_codes (some g) rows).getD 0 [] = rows.getD 0 [] ∧
    ∀ k, k + 1 < rows.length →
      (fill_empty_class_codes (some g) rows).getD (k + 1) [] =
        stepFn g (some ((fill_empty_class_codes (some g) rows).getD k []))
          (rows.getD (k + 1) []) := by
  refine ⟨fillGroupRows_length g rows none, ?_, ?_⟩
  · cases rows with
    | nil => rfl
    | cons r rs =>
      show (fillGroupRows g none (r :: rs)).getD 0 [] = r
      simp [fillGroupRows, stepFn_none]
  · intro k hk
    exact fillGroupRows_getD_succ g rows none k hk

/-- Witness for the amended claim C1 at the counterexample table and
row index 2. -/
theorem claimC1_witness :
    (fill_empty_class_codes (some 0)
        [[some "A", some "1"], [some "", some "2"], [some "", some ""]]).getD 2 [] =
      stepFn 0
        (some ((fill_empty_class_codes (some 0)
          [[some "A", some "1"], [some "", some "2"], [some "", some ""]]).getD 1 []))
        ([[some "A", some "1"], [some "", some "2"], [some "", some ""]].getD 2 []) :=
  (claimC1_amended 0
      [[some "A", some "1"], [some "", some "2"], [some "", some ""]]).2.2 1
    (by decide)

/-- Claim C2: the Group Reconstructor is idempotent in both the
grouping-column mode and the per-column forward-fill fallback mode —
running it on its own output returns the output unchanged. -/
theorem claimC2 (gcol : Option Nat) (rows : List Row) :
    fill_empty_class_codes gcol (fill_empty_class_codes gcol rows) =
      fill_empty_class_codes gcol rows := by
  cases gcol with
  | some g => exact fillGroupRows_idem g rows none
  | none => exact ffillRows_idem rows [] (by simp)

/-- Claim C6: in both modes the Group Reconstructor leaves the first row
of a table unchanged — it has the same number of cells, its empty cells
remain empty, and its non-empty cells keep their values. -/
theorem claimC6 (gcol : Option Nat) (r : Row) (rs : List Row) :
    ((fill_empty_class_codes gcol (r :: rs)).headD []).length = r.length ∧
    ∀ j, j < r.length →
      (emptyCell (cellAt r j) = true →
        emptyCell (cellAt ((fill_empty_class_codes gcol (r :: rs)).headD []) j) = true) ∧
      (emptyCell (cellAt r j) = false →
        cellAt ((fill_empty_class_codes gcol (r :: rs)).headD []) j = cellAt r j) := by
  cases gcol with
  | some g =>
    have hhead : (fill_empty_class_codes (some g) (r :: rs)).headD [] = r := by
      show (fillGroupRows g none (r :: rs)).headD [] = r
      simp [fillGroupRows, stepFn_none]
    rw [hhead]
    exact ⟨rfl, fun j _ => ⟨fun h => h, fun _ => rfl⟩⟩
  | none =>
    have hhead : (fill_empty_class_codes none (r :: rs)).headD [] = r.map replBlank := by
      show (ffillRows [] (r :: rs)).headD [] = r.map replBlank
      simp [ffillRows, fillRowF_nil]
    rw [hhead]
    refine ⟨by simp, fun j hj => ⟨fun h => ?_, fun h => ?_⟩⟩
    · rw [cellAt_map_replBlank r j hj]
      exact emptyCell_replBlank _ h
    · rw [cellAt_map_replBlank r j hj]
      exact replBlank_of_nonempty _ h

/-- Witness for claim C6: the fallback mode keeps the first row's empty
cell empty and its non-empty cell intact. -/
theorem claimC6_witness :
    emptyCell (cellAt ((fill_empty_class_codes none
        ([some "", some "x"] :: ([] : List Row))).headD []) 0) = true :=
  ((claimC6 none [some "", some "x"] []).2 0 (by decide)).1 (by decide)

/-! ## Claims C3, C4, C5 -/

/-- Claim C3: the schedule parser on `"Th 09:30AM - 12:15PM"` returns
day 4, start time 930 and end time 1215. -/
theorem claimC3 :
    parse_period (some "Th 09:30AM - 12:15PM") = (some 4, some 930, some 1215) := by
  decide

/-- Claim C4: whenever the time regex parses a token into hour, minute
and optional meridiem, the result is `hour*100 + minute` after exactly
the documented correction — `pm` with hour below 12 adds 12, `am` with
hour 12 gives 0, and no meridiem leaves the hour as written; in
particular `"M 1:00 - 2:15"` parses to day 1, start 100, end 215. -/
theorem claimC4 :
    (∀ (cs : List Char) (h m : Nat) (ap : Option (List Char)),
      extractTimeFields cs = some (h, m, ap) →
      extract_time cs =
        some ((if ap = some ['p', 'm'] ∧ h < 12 then h + 12
          else if ap = some ['a', 'm'] ∧ h = 12 then 0 else h) * 100 + m)) ∧
    parse_period (some "M 1:00 - 2:15") = (some 1, some 100, some 215) := by
  constructor
  · intro cs h m ap hf
    have hne : cs.isEmpty = false := by
      cases cs with
      | nil => simp [extractTimeFields] at hf
      | cons c rest => rfl
    simp [extract_time, hne, hf, to24]
  · decide

/-- Witness for claim C4 at the token `"9pm"`: hour 9, no minute,
meridiem `pm`, giving 2100. -/
theorem claimC4_witness :
    extractTimeFields ("9pm".toList) = some (9, 0, some ['p', 'm']) ∧
    extract_time ("9pm".toList) =
      some ((if (some ['p', 'm'] : Option (List Char)) = some ['p', 'm'] ∧ 9 < 12 then 9 + 12
        else if (some ['p', 'm'] : Option (List Char)) = some ['a', 'm'] ∧ 9 = 12 then 0
        else 9) * 100 + 0) :=
  ⟨by decide, claimC4.1 ("9pm".toList) 9 0 (some ['p', 'm']) (by decide)⟩

/-- Claim C5: when fewer than two time tokens are found by both
strategies (the dash split and the whole-text scan), both start and end
times are absent — a single token never fills an endpoint; and the empty
string and the null input give absent day, start and end. -/
theorem claimC5 :
    (∀ str : String, str.toList.isEmpty = false →
      (2 ≤ (splitSep str.toList).length →
        ((splitSep str.toList).filter (fun p => !(timeMatches p).isEmpty)).length < 2) →
      (timeMatches str.toList).length < 2 →
      extract_start_end_times (some str) = (none, none)) ∧
    parse_period none = (none, none, none) ∧
    parse_period (some "") = (none, none, none) := by
  refine ⟨?_, by decide, by decide⟩
  intro str hne h1 h2
  have hfb : fallbackTimes str.toList = (none, none) := by
    have h2' : ¬ 2 ≤ (timeMatches str.toList).length := by omega
    simp only [fallbackTimes]
    rw [if_neg h2']
  show (if str.toList.isEmpty then (none, none)
    else if 2 ≤ (splitSep str.toList).length then
      if 2 ≤ ((splitSep str.toList).filter
          (fun p => !(timeMatches p).isEmpty)).length then
        (extract_time (((splitSep str.toList).filter
            (fun p => !(timeMatches p).isEmpty)).getD 0 []),
          extract_time (((splitSep str.toList).filter
            (fun p => !(timeMatches p).isEmpty)).getD 1 []))
      else fallbackTimes str.toList
    else fallbackTimes str.toList) = ((none : Option Nat), (none : Option Nat))
  rw [hne]
  simp only [Bool.false_eq_true, if_false]
  by_cases hp : 2 ≤ (splitSep str.toList).length
  · have htp' : ¬ 2 ≤ ((splitSep str.toList).filter
        (fun p => !(timeMatches p).isEmpty)).length := by
      have := h1 hp
      omega
    rw [if_pos hp, if_neg htp', hfb]
  · rw [if_neg hp, hfb]

/-- Witness for claim C5 at `"M 9AM"`: one dash-split part and one
whole-text time match, hence no start or end time. -/
theorem claimC5_witness :
    extract_start_end_times (some "M 9AM") = (none, none) :=
  claimC5.1 "M 9AM" (by decide) (by decide) (by decide)

/-! ## Claim C7 -/

theorem filter_all_self (l : List Char) (p : Char → Bool) :
    (l.filter p).all p = true := by
  induction l with
  | nil => rfl
  | cons c cs ih =>
    by_cases h : p c = true
    · simp [List.filter_cons, h, ih]
    · simp only [List.filter_cons]
      simp [h, ih]

theorem digitPrefix_all (l : List Char) (hall : l.all isWordChar = true) :
    (digitPrefix l).all isWordChar = true := by
  cases l with
  | nil => rfl
  | cons c cs =>
    have hp : isWordChar 'p' = true := by decide
    have hu : isWordChar '_' = true := by decide
    by_cases hd : c.isDigit = true
    · simp [digitPrefix, hd, hp, hu, List.all_cons]
      simpa [List.all_cons] using hall
    · simp only [digitPrefix, hd, Bool.false_eq_true, if_neg]
      exact hall

/-- Claim C7, counterexample.  The source replaces the whole regex
whitespace class `\s` with underscores, not only the space character: on
`"a\tb"` the code yields `"a_b"` while the claim's literal rule (tab not
replaced, then stripped as a non-word character) yields `"ab"`. -/
theorem claimC7_cex :
    convert_to_sql_period (some "a\tb") ≠ derive_token_claimC7 (some "a\tb") := by
  decide

/-- Claim C7, amended: the replacement set is period, slash, hyphen,
colon and every character Python classifies as whitespace — the ASCII
whitespace characters and the Unicode whitespace characters (no-break
space, NEL, the U+2000 family, line/paragraph separators, ideographic
space, …), exactly the characters `\s` matches in a `str` pattern; the
remaining non-word characters are stripped and a leading digit attracts
the `p_` prefix; empty or null input maps to absent.  Every produced
token consists of word characters only, and
`derive_token("09:30-12:15") = "p_09_30_12_15"`. -/
theorem claimC7_amended :
    (∀ s, convert_to_sql_period s = derive_token_amendedC7 s) ∧
    (∀ (s : Option String) (t : String),
      convert_to_sql_period s = some t → t.toList.all isWordChar = true) ∧
    convert_to_sql_period (some "09:30-12:15") = some "p_09_30_12_15" := by
  have hpred : ∀ c, isUnderscoreTarget c = amendedC7ReplChar c := by
    intro c
    simp only [isUnderscoreTarget, amendedC7ReplChar, isPySpace]
    by_cases h1 : c = '.' <;> by_cases h2 : c = '/' <;> by_cases h3 : c = '-' <;>
      by_cases h4 : c = ':' <;> simp [h1, h2, h3, h4]
  refine ⟨?_, ?_, by decide⟩
  · intro s
    cases s with
    | none => rfl
    | some str =>
      have hfun : (fun c => if isUnderscoreTarget c then '_' else c) =
          (fun c => if amendedC7ReplChar c then '_' else c) := by
        funext c
        rw [hpred]
      simp only [convert_to_sql_period, derive_token_amendedC7, hfun]
  · intro s t h
    cases s with
    | none => simp [convert_to_sql_period] at h
    | some str =>
      simp only [convert_to_sql_period] at h
      by_cases he : str.toList.isEmpty = true
      · rw [if_pos he] at h
        simp at h
      · rw [if_neg he] at h
        have ht := (Option.some.inj h).symm
        subst ht
        exact digitPrefix_all _ (filter_all_self _ _)

/-- Witness for the amended claim C7: the token derived from `"x"`
consists of word characters only. -/
theorem claimC7_witness : ("x" : String).toList.all isWordChar = true :=
  claimC7_amended.2.1 (some "x") "x" (by decide)

/-! ## Claim C8: totality of the parsing core -/

theorem pyIntE_ok_of (cs : List Char) (h1 : cs ≠ []) (h2 : cs.all Char.isDigit = true) :
    pyIntE cs = .ok (digitsToNat cs) := by
  simp [pyIntE, h1, h2]

theorem takeUpTo_all (n : Nat) (p : Char → Bool) :
    ∀ cs : List Char, ((takeUpTo n p cs).1).all p = true := by
  induction n with
  | zero => intro cs; rfl
  | succ m ih =>
    intro cs
    cases cs with
    | nil => rfl
    | cons c rest =>
      by_cases h : p c = true
      · simp [takeUpTo, h, ih rest]
      · simp [takeUpTo, h]

theorem timeFieldsParts_hh (c : Char) (rest : List Char) (hc : c.isDigit = true) :
    (timeFieldsParts (c :: rest)).1 ≠ [] ∧
      (timeFieldsParts (c :: rest)).1.all Char.isDigit = true := by
  have hfst : (timeFieldsParts (c :: rest)).1 = (takeUpTo 2 Char.isDigit (c :: rest)).1 := rfl
  have hstep : (takeUpTo 2 Char.isDigit (c :: rest)).1 =
      c :: (takeUpTo 1 Char.isDigit rest).1 := by
    simp [takeUpTo, hc]
  rw [hfst, hstep]
  exact ⟨by simp, by simp [List.all_cons, hc, takeUpTo_all]⟩

theorem minuteGroup_digits (r2 d : List Char) (h : (minuteGroup r2).1 = some d) :
    d ≠ [] ∧ d.all Char.isDigit = true := by
  cases r2 with
  | nil => simp [minuteGroup] at h
  | cons a t0 =>
    cases t0 with
    | nil => simp [minuteGroup] at h
    | cons b t =>
      by_cases hab : (a.isDigit && b.isDigit) = true
      · simp only [minuteGroup, hab, if_true] at h
        simp only [Option.some.injEq] at h
        subst h
        obtain ⟨ha, hb⟩ : a.isDigit = true ∧ b.isDigit = true := by simpa using hab
        exact ⟨by simp, by simp [List.all_cons, ha, hb]⟩
      · simp [minuteGroup, hab] at h

theorem timeFieldsParts_mm (cs d : List Char)
    (hmm : (timeFieldsParts cs).2.1 = some d) :
    d ≠ [] ∧ d.all Char.isDigit = true :=
  minuteGroup_digits _ d hmm

theorem timeFieldsAtE_ok (c : Char) (rest : List Char) (hc : c.isDigit = true) :
    timeFieldsAtE (c :: rest) = .ok (timeFieldsAt (c :: rest)) := by
  obtain ⟨hne, hall⟩ := timeFieldsParts_hh c rest hc
  cases hm : (timeFieldsParts (c :: rest)).2.1 with
  | none => simp [timeFieldsAtE, timeFieldsAt, pyIntE_ok_of _ hne hall, hm]
  | some d =>
    obtain ⟨hdne, hdall⟩ := timeFieldsParts_mm (c :: rest) d hm
    simp [timeFieldsAtE, timeFieldsAt, pyIntE_ok_of _ hne hall, hm,
      pyIntE_ok_of _ hdne hdall]

theorem extractTimeFieldsE_ok :
    ∀ cs : List Char, extractTimeFieldsE cs = .ok (extractTimeFields cs) := by
  intro cs
  induction cs with
  | nil => rfl
  | cons c rest ih =>
    by_cases hc : c.isDigit = true
    · simp [extractTimeFieldsE, extractTimeFields, hc, timeFieldsAtE_ok c rest hc]
    · simpa [extractTimeFieldsE, extractTimeFields, hc] using ih

theorem extract_timeE_ok (cs : List Char) :
    extract_timeE cs = .ok (extract_time cs) := by
  by_cases he : cs.isEmpty = true
  · simp [extract_timeE, extract_time, he]
  · cases hf : extractTimeFields cs with
    | none => simp [extract_timeE, extract_time, he, extractTimeFieldsE_ok cs, hf]
    | some v =>
      obtain ⟨h, m, ap⟩ := v
      simp [extract_timeE, extract_time, he, extractTimeFieldsE_ok cs, hf]

theorem fallbackTimesE_ok (cs : List Char) :
    fallbackTimesE cs = .ok (fallbackTimes cs) := by
  simp only [fallbackTimesE, fallbackTimes]
  by_cases h : 2 ≤ (timeMatches cs).length
  · simp [h, extract_timeE_ok]
  · simp [h]

theorem extract_start_end_timesE_ok (s : Option String) :
    extract_start_end_timesE s = .ok (extract_start_end_times s) := by
  cases s with
  | none => rfl
  | some str =>
    simp only [extract_start_end_timesE, extract_start_end_times]
    by_cases he : str.toList.isEmpty = true
    · rw [if_pos he, if_pos he]
    · rw [if_neg he, if_neg he]
      by_cases hp : 2 ≤ (splitSep str.toList).length
      · rw [if_pos hp, if_pos hp]
        by_cases htp : 2 ≤ ((splitSep str.toList).filter
            (fun p => !(timeMatches p).isEmpty)).length
        · rw [if_pos htp, if_pos htp, extract_timeE_ok, extract_timeE_ok]
        · rw [if_neg htp, if_neg htp, fallbackTimesE_ok]
      · rw [if_neg hp, if_neg hp, fallbackTimesE_ok]

/-- Claim C8: totality of the parsing core.  For every input — including
the null value and arbitrary malformed strings — the schedule-cell
cleaner, the SQL-token deriver, the day extractor and the start/end time
extractor produce a result; with the fallible `int(...)` sites
instrumented as `Except`, the pipeline always returns `ok` of the plain
result and never an error. -/
theorem claimC8 (s : Option String) :
    parse_cellE s = .ok (sanitize_period s, convert_to_sql_period s, extract_day s,
      extract_start_end_times s) := by
  simp only [parse_cellE]
  rw [extract_start_end_timesE_ok]

/-! ## Claims C9, C10: the day lexicon and the day extractor -/

theorem get?_some_lt : ∀ (l : List Char) (n : Nat) (c : Char),
    l.get? n = some c → n < l.length := by
  intro l
  induction l with
  | nil => intro n c h; simp at h
  | cons x xs ih =>
    intro n c h
    cases n with
    | zero => simp only [List.length_cons]; omega
    | succ m =>
      simp only [List.get?] at h
      have := ih m c h
      simp only [List.length_cons]
      omega

theorem isPrefixOf_eq_take : ∀ (a b : List Char),
    a.isPrefixOf b = true → a = b.take a.length := by
  intro a
  induction a with
  | nil => intro b _; rfl
  | cons x xs ih =>
    intro b h
    cases b with
    | nil => simp [List.isPrefixOf] at h
    | cons y ys =>
      simp only [List.isPrefixOf, Bool.and_eq_true, beq_iff_eq] at h
      obtain ⟨rfl, hps⟩ := h
      simp only [List.length_cons, List.take_succ_cons]
      exact congrArg (x :: ·) (ih ys hps)

theorem isPrefixOf_length_le (a b : List Char) (h : a.isPrefixOf b = true) :
    a.length ≤ b.length := by
  have heq := congrArg List.length (isPrefixOf_eq_take a b h)
  rw [List.length_take] at heq
  omega

theorem dayClosure : ∀ kv ∈ dayMapping, ∀ n, n < 4 → 0 < n → n < kv.1.length →
    (assocLookup (kv.1.take n) dayMapping).isSome = true := by decide

theorem dayKeysFound : ∀ kv ∈ dayMapping,
    (assocLookup kv.1 dayMapping).isSome = true := by decide

theorem prefixLookup_none (k : List Char) :
    ∀ l : List (List Char × Nat), (∀ kv ∈ l, k.isPrefixOf kv.1 = false) →
      prefixLookup k l = none := by
  intro l
  induction l with
  | nil => intro _; rfl
  | cons kv rest ih =>
    intro h
    have h0 : k.isPrefixOf kv.1 = false := h kv (List.mem_cons_self kv rest)
    simp only [prefixLookup, h0, Bool.false_eq_true, if_false]
    exact ih (fun kv' h' => h kv' (List.mem_cons_of_mem _ h'))

theorem leadsWith_get (n : Nat) (cs : List Char) (h : leadsWith n cs = true) :
    ∃ c, cs.get? n = some c := by
  simp only [leadsWith, Bool.and_eq_true] at h
  obtain ⟨_, hmatch⟩ := h
  cases hg : cs.get? n with
  | none => rw [hg] at hmatch; simp at hmatch
  | some c => exact ⟨c, rfl⟩

theorem matchDayToken_some (cs tok : List Char) (h : matchDayToken cs = some tok) :
    ∃ n, (n = 1 ∨ n = 2 ∨ n = 3) ∧ tok = cs.take n ∧ leadsWith n cs = true := by
  unfold matchDayToken at h
  by_cases h3 : leadsWith 3 cs = true
  · rw [if_pos h3] at h
    exact ⟨3, by tauto, (Option.some.inj h).symm, h3⟩
  · rw [if_neg h3] at h
    by_cases h2 : leadsWith 2 cs = true
    · rw [if_pos h2] at h
      exact ⟨2, by tauto, (Option.some.inj h).symm, h2⟩
    · rw [if_neg h2] at h
      by_cases h1 : leadsWith 1 cs = true
      · rw [if_pos h1] at h
        exact ⟨1, by tauto, (Option.some.inj h).symm, h1⟩
      · rw [if_neg h1] at h
        simp at h

theorem matchDayToken_len (cs tok : List Char) (h : matchDayToken cs = some tok) :
    1 ≤ tok.length ∧ tok.length ≤ 3 := by
  obtain ⟨n, hn, rfl, hl⟩ := matchDayToken_some cs tok h
  obtain ⟨c, hg⟩ := leadsWith_get n cs hl
  have hlt : n < cs.length := get?_some_lt cs n c hg
  have hmin : (cs.take n).length = n := by
    rw [List.length_take]
    omega
  rw [hmin]
  omega

/-- Claim C9: every 1-3-letter strict prefix of a lexicon key is itself
a key, so the prefix-fallback loop of `extract_day` never decides the
result — the outcome coincides with the exact-lookup-only extractor —
and any cell beginning `"S "` resolves to day 6 via the exact entry for
`"s"`. -/
theorem claimC9 :
    (∀ kv ∈ dayMapping, ∀ n, n < 4 → 0 < n → n < kv.1.length →
      (assocLookup (kv.1.take n) dayMapping).isSome = true) ∧
    (∀ s, extract_day s = extract_day_exact s) ∧
    (∀ rest : String, extract_day (some ("S " ++ rest)) = some 6) := by
  refine ⟨dayClosure, ?_, ?_⟩
  · intro s
    cases s with
    | none => rfl
    | some str =>
      simp only [extract_day, extract_day_exact]
      by_cases he : str.toList.isEmpty = true
      · rw [if_pos he, if_pos he]
      · rw [if_neg he, if_neg he]
        cases hm : matchDayToken str.toList with
        | none => rfl
        | some tok =>
          show (match assocLookup (tok.map Char.toLower) dayMapping with
            | some v => some v
            | none => prefixLookup (tok.map Char.toLower) dayMapping) =
              assocLookup (tok.map Char.toLower) dayMapping
          cases hl : assocLookup (tok.map Char.toLower) dayMapping with
          | some v => rfl
          | none =>
            apply prefixLookup_none
            intro kv hkv
            by_contra hpf'
            rw [Bool.not_eq_false] at hpf'
            have htok := matchDayToken_len str.toList tok hm
            have hlen : (tok.map Char.toLower).length = tok.length :=
              List.length_map _ _
            have heq := isPrefixOf_eq_take _ _ hpf'
            have hle := isPrefixOf_length_le _ _ hpf'
            rcases Nat.eq_or_lt_of_le hle with hcase | hcase
            · have hk : tok.map Char.toLower = kv.1 := by
                rw [heq, hcase, List.take_length]
              have hfound := dayKeysFound kv hkv
              rw [← hk, hl] at hfound
              simp at hfound
            · have hclose := dayClosure kv hkv (tok.map Char.toLower).length
                (by omega) (by omega) hcase
              rw [← heq, hl] at hclose
              simp at hclose
  · intro rest
    have hdata : ("S " ++ rest).toList = 'S' :: ' ' :: rest.toList := by
      show ("S " ++ rest).data = 'S' :: ' ' :: rest.data
      rw [String.data_append]
      rfl
    have haS : ('S' : Char).isAlpha = true := rfl
    have haSp : (' ' : Char).isAlpha = false := rfl
    have hsp : isPySpace ' ' = true := rfl
    have h3 : leadsWith 3 ('S' :: ' ' :: rest.toList) = false := by
      simp [leadsWith, List.take_succ_cons, List.all_cons, haSp]
    have h2 : leadsWith 2 ('S' :: ' ' :: rest.toList) = false := by
      simp [leadsWith, List.take_succ_cons, List.all_cons, haSp]
    have h1 : leadsWith 1 ('S' :: ' ' :: rest.toList) = true := by
      simp [leadsWith, List.take_succ_cons, List.all_cons, haS, List.get?, hsp]
    have hm : matchDayToken ('S' :: ' ' :: rest.toList) = some ['S'] := by
      unfold matchDayToken
      rw [h3, h2, h1]
      simp
    have hie : ('S' :: ' ' :: rest.toList).isEmpty = false := rfl
    simp only [extract_day, hdata, hie, Bool.false_eq_true, if_false, hm]
    decide

/-- Witness for claim C9: the one-letter prefix of `"sunday"` is a key,
the exact/fallback extractors agree on `"Tu 9AM"`, and `"S 10AM"`
resolves to Saturday. -/
theorem claimC9_witness :
    (assocLookup (("sunday".toList).take 1) dayMapping).isSome = true ∧
    extract_day (some "Tu 9AM") = extract_day_exact (some "Tu 9AM") ∧
    extract_day (some ("S " ++ "10AM")) = some 6 :=
  ⟨claimC9.1 ("sunday".toList, 7) (by decide) 1 (by decide) (by decide) (by decide),
   claimC9.2.1 (some "Tu 9AM"),
   claimC9.2.2 "10AM"⟩

theorem alpha_not_pyspace (c : Char) (h : c.isAlpha = true) : isPySpace c = false := by
  cases hps : isPySpace c
  · rfl
  · exfalso
    simp only [isPySpace, decide_eq_true_eq] at hps
    rcases hps with rfl | rfl | rfl | rfl | rfl | rfl | rfl | rfl | rfl | rfl |
      rfl | rfl | rfl | rfl | rfl | rfl | rfl | rfl | rfl | rfl |
      rfl | rfl | rfl | rfl | rfl | rfl | rfl | rfl | rfl <;>
      exact absurd h (by decide)

/-- Claim C10: an input whose leading alphabetic run is longer than 3
characters yields no day — the anchored 1-3-letter match cannot shorten
the run, so `"Thur ..."` and `"Monday ..."` give an absent day although
`thur` and `monday` are lexicon keys. -/
theorem claimC10 :
    (∀ str : String,
      (∀ i, i < 4 → ∃ c, str.toList.get? i = some c ∧ c.isAlpha = true) →
      extract_day (some str) = none) ∧
    extract_day (some "Thur 09:30AM - 12:15PM") = none ∧
    extract_day (some "Monday 9AM - 10AM") = none := by
  refine ⟨?_, by decide, by decide⟩
  intro str h4
  obtain ⟨c0, hc0, _⟩ := h4 0 (by omega)
  have hne : str.toList.isEmpty = false := by
    cases hcs : str.toList with
    | nil => rw [hcs] at hc0; simp at hc0
    | cons a t => rfl
  have hlw : ∀ n, n < 4 → leadsWith n str.toList = false := by
    intro n hn4
    obtain ⟨c, hg, ha⟩ := h4 n hn4
    have hsps := alpha_not_pyspace c ha
    unfold leadsWith
    rw [hg]
    have hred : (match some c with
        | some c => isPySpace c
        | none => false) = isPySpace c := rfl
    rw [hred, hsps, Bool.and_false]
  have hm : matchDayToken str.toList = none := by
    simp only [matchDayToken]
    rw [hlw 3 (by omega), hlw 2 (by omega), hlw 1 (by omega)]
    simp
  simp only [extract_day, hne, Bool.false_eq_true, if_false, hm]

/-- Witness for claim C10 at `"Thur 09:30AM - 12:15PM"`, whose first
four characters are alphabetic. -/
theorem claimC10_witness :
    extract_day (some "Thur 09:30AM - 12:15PM") = none :=
  claimC10.1 "Thur 09:30AM - 12:15PM" (by
    intro i hi
    interval_cases i
    · exact ⟨'T', rfl, rfl⟩
    · exact ⟨'h', rfl, rfl⟩
    · exact ⟨'u', rfl, rfl⟩
    · exact ⟨'r', rfl, rfl⟩)

end CourseDB
